import Mathlib

/-!
Verification development for the FASTER key-value store C shim layer.

Shallow embedding of the code under scrutiny:
* the in-memory scan iterator `FasterIterator::GetNext` (src/unnamed/part_000);
* the value-embedded generation lock `GenLock` / `AtomicGenLock`
  (src/cc/src/core/faster-c.cc, lines 116-186, identical copy in
  src/unnamed/part_001);
* the byte-value contexts `UpsertContext::PutAtomic` and `RmwContext::RmwAtomic`
  (src/cc/src/core/faster-c.cc, lines 455-525 and 586-676);
* the u64-value context `RmwU64Context` (src/unnamed/part_001, lines 1240-1287);
* the ten-elements contexts `RmwTenElementsContext` and
  `ReadTenElementsContext` (src/unnamed/part_001, lines 357-379, 661-714,
  1393-1451);
* the C shims `faster_continue_session` (src/unnamed/part_001, lines 2415-2428)
  and the `faster_status` encoding (src/unnamed/part_000, lines 118-127).

Machine integers are embedded as `Nat` with explicit reductions `% 2^64` where
the C code can wrap.  Concurrency is embedded sequentially: each atomic
operation is a state transformer on the single lock word / value it touches;
a spin loop that can only be released by another thread is modelled as a
non-terminating call (`Option`-valued result `none`).
-/

namespace FasterSpec

/-! ## Generation lock (faster-c.cc, class GenLock / AtomicGenLock)

A `GenLock` is one 64-bit word with bit layout (low to high):
`gen_number : 62`, `locked : 1`, `replaced : 1`.  We embed the word as a `Nat`
below `2^64` and read the fields arithmetically. -/

/-- The `gen_number` bit field: the low 62 bits of the control word. -/
def genNumber (w : Nat) : Nat := w % 2 ^ 62

/-- The `locked` bit field: bit 62 of the control word. -/
def lockedBit (w : Nat) : Nat := w / 2 ^ 62 % 2

/-- The `replaced` bit field: bit 63 of the control word. -/
def replacedBit (w : Nat) : Nat := w / 2 ^ 63 % 2

/-- `AtomicGenLock::try_lock(bool& replaced)` (faster-c.cc lines 156-171),
sequential semantics.  The snapshot `expected` is the current word with the
`locked` and `replaced` bits cleared (for `w < 2^64` that is `w % 2^62`);
`desired` is `expected` with `locked` set.  The CAS succeeds exactly when the
word equals `expected`.  Returns `(acquired, replaced out-parameter, word
after the call)`; on failure `compare_exchange_strong` leaves the word
unchanged and the code sets the out-parameter to the `replaced` bit of the
observed word. -/
def tryLock (w : Nat) : Bool × Bool × Nat :=
  let expected := w % 2 ^ 62
  let desired := expected + 2 ^ 62
  if w = expected then (true, false, desired)
  else (false, decide (w / 2 ^ 63 % 2 = 1), w)

/-- `AtomicGenLock::unlock(bool replaced)` (faster-c.cc lines 172-182).
`fetch_sub(2^62 - 1)` when the value did not grow, `fetch_add(2^63 - 2^62 + 1)`
when it did; both wrap modulo `2^64`.  The subtraction is expressed as
`(w + 2^64 - delta) % 2^64`, which agrees with two's-complement wraparound for
every `w < 2^64`. -/
def unlock (replaced : Bool) (w : Nat) : Nat :=
  match replaced with
  | false => (w + 2 ^ 64 - (2 ^ 62 - 1)) % 2 ^ 64
  | true => (w + (2 ^ 63 - 2 ^ 62 + 1)) % 2 ^ 64

/-- Helper: a word below `2^64` with `locked` and `replaced` clear is below
`2^62`, so the `try_lock` snapshot equals the word itself. -/
theorem mod62_eq_self (w : Nat) (hw : w < 2 ^ 64) (hl : lockedBit w = 0)
    (hr : replacedBit w = 0) : w % 2 ^ 62 = w := by
  unfold lockedBit at hl
  unfold replacedBit at hr
  omega

/-- Helper: `try_lock` on a free word acquires the lock and sets bit 62. -/
theorem tryLock_acquire (w : Nat) (hw : w < 2 ^ 64) (hl : lockedBit w = 0)
    (hr : replacedBit w = 0) : tryLock w = (true, false, w + 2 ^ 62) := by
  have h := mod62_eq_self w hw hl hr
  unfold tryLock
  simp only [h]
  simp

/-- Helper: `try_lock` on a word with `locked` or `replaced` set fails, leaves
the word unchanged, and reports the `replaced` bit of the word. -/
theorem tryLock_fail (w : Nat) (_hw : w < 2 ^ 64)
    (h : ¬(lockedBit w = 0 ∧ replacedBit w = 0)) :
    tryLock w = (false, decide (replacedBit w = 1), w) := by
  have hne : ¬ w = w % 2 ^ 62 := by
    unfold lockedBit replacedBit at h
    omega
  unfold tryLock
  simp only [if_neg (fun hh => hne hh)]
  rfl

/-! ## Claims C5 and C6: the generation lock word transitions. -/

/-- C5 as stated is false: at `gen_number = 2^62 - 1` (word `2^63 - 1`, which
has `locked = 1` and `replaced = 0`) the increment performed by
`unlock(grew = false)` carries into the `locked` bit, so the result does not
have `locked` cleared, nor is the gen number incremented by one. -/
theorem C5_counterexample :
    lockedBit (2 ^ 63 - 1) = 1 ∧ replacedBit (2 ^ 63 - 1) = 0 ∧
      ¬(lockedBit (unlock false (2 ^ 63 - 1)) = 0 ∧
        genNumber (unlock false (2 ^ 63 - 1)) = genNumber (2 ^ 63 - 1) + 1 ∧
        replacedBit (unlock false (2 ^ 63 - 1)) = 0) := by
  refine ⟨by decide, by decide, ?_⟩
  intro h
  have h1 := h.1
  revert h1
  decide

/-- C5 amended: for every lock word with `locked = 1`, `replaced = 0` and
`gen_number < 2^62 - 1` (no wraparound of the 62-bit counter), `unlock(grew)`
clears `locked`, increments `gen_number` by one, and sets `replaced` exactly
when `grew` is true. -/
theorem C5_amended_unlock_spec (w : Nat) (hw : w < 2 ^ 64)
    (hl : lockedBit w = 1) (hr : replacedBit w = 0)
    (hg : genNumber w < 2 ^ 62 - 1) :
    lockedBit (unlock false w) = 0 ∧
      genNumber (unlock false w) = genNumber w + 1 ∧
      replacedBit (unlock false w) = 0 ∧
      lockedBit (unlock true w) = 0 ∧
      genNumber (unlock true w) = genNumber w + 1 ∧
      replacedBit (unlock true w) = 1 := by
  unfold lockedBit replacedBit genNumber at *
  unfold unlock
  simp only
  omega

/-- Witness for C5 amended at the concrete word `2^62` (gen 0, locked, not
replaced): `unlock(false)` yields word 1 (gen 1, unlocked). -/
theorem C5_amended_witness :
    (2 : Nat) ^ 62 < 2 ^ 64 ∧ lockedBit (2 ^ 62) = 1 ∧
      replacedBit (2 ^ 62) = 0 ∧ genNumber (2 ^ 62) < 2 ^ 62 - 1 ∧
      (lockedBit (unlock false (2 ^ 62)) = 0 ∧
        genNumber (unlock false (2 ^ 62)) = genNumber (2 ^ 62) + 1 ∧
        replacedBit (unlock false (2 ^ 62)) = 0 ∧
        lockedBit (unlock true (2 ^ 62)) = 0 ∧
        genNumber (unlock true (2 ^ 62)) = genNumber (2 ^ 62) + 1 ∧
        replacedBit (unlock true (2 ^ 62)) = 1) :=
  ⟨by decide, by decide, by decide, by decide,
    C5_amended_unlock_spec (2 ^ 62) (by decide) (by decide) (by decide)
      (by decide)⟩

/-- C6: `try_lock` acquires exactly when the word has `locked = 0` and
`replaced = 0`; on success it sets `locked = 1` leaving `gen_number` and
`replaced` unchanged; on failure the word is unchanged and the `replaced`
out-parameter is true exactly when the observed word has `replaced = 1`
(otherwise the failure is a plain Busy with the out-parameter false). -/
theorem C6_try_lock_spec (w : Nat) (hw : w < 2 ^ 64) :
    ((lockedBit w = 0 ∧ replacedBit w = 0) →
      tryLock w = (true, false, w + 2 ^ 62) ∧
        lockedBit (w + 2 ^ 62) = 1 ∧
        genNumber (w + 2 ^ 62) = genNumber w ∧
        replacedBit (w + 2 ^ 62) = 0) ∧
      (¬(lockedBit w = 0 ∧ replacedBit w = 0) →
        (tryLock w).1 = false ∧ (tryLock w).2.2 = w ∧
          ((tryLock w).2.1 = true ↔ replacedBit w = 1)) := by
  constructor
  · rintro ⟨hl, hr⟩
    have hlt : w < 2 ^ 62 := by
      unfold lockedBit at hl
      unfold replacedBit at hr
      omega
    refine ⟨tryLock_acquire w hw hl hr, ?_, ?_, ?_⟩
    · unfold lockedBit
      omega
    · unfold genNumber
      omega
    · unfold replacedBit
      omega
  · intro h
    rw [tryLock_fail w hw h]
    refine ⟨rfl, rfl, ?_⟩
    simp

/-- Witness for C6 at the free word 0: the lock is acquired and the word
becomes `2^62`. -/
theorem C6_witness :
    (0 : Nat) < 2 ^ 64 ∧
      ((lockedBit 0 = 0 ∧ replacedBit 0 = 0) →
        tryLock 0 = (true, false, 0 + 2 ^ 62) ∧
          lockedBit (0 + 2 ^ 62) = 1 ∧
          genNumber (0 + 2 ^ 62) = genNumber 0 ∧
          replacedBit (0 + 2 ^ 62) = 0) :=
  ⟨by decide, (C6_try_lock_spec 0 (by decide)).1⟩

/-! ## In-memory scan iterator (src/unnamed/part_000, FasterIterator::GetNext)

The record header layout is the one the spec gives for the hybrid log
(core/record.h is not under src/): flag bits `invalid`, `tombstone`,
`in_new_version` and a 48-bit `previous_address`.  `GetNext` only ever reads
the `invalid` bit.  Keys and values are opaque template parameters, embedded
as type parameters. -/

/-- Record header: `{ invalid, tombstone, in_new_version, previous_address }`
(layout per spec section 3; the header type itself is outside src/). -/
structure RecordHeader where
  invalid : Bool
  tombstone : Bool
  in_new_version : Bool
  previous_address : Nat
deriving Repr, DecidableEq

/-- A log record as the iterator sees it: header, key, value, and the byte
size `record_->size()` by which the cursor advances. -/
structure ScanRecord (K V : Type) where
  header : RecordHeader
  key : K
  value : V
  size : Nat
deriving Repr, DecidableEq

/-- The possible outcomes of one `GetNext` call. -/
inductive GetNextResult (K V : Type) where
  /-- `current_address_ >= end_address_`: return false. -/
  | scanEnded : GetNextResult K V
  /-- `current_address_ < begin_address`: throws a runtime error. -/
  | beginError : GetNextResult K V
  /-- `current_address_ < head_address`: throws (iterating on-disk records). -/
  | headError : GetNextResult K V
  /-- Record yielded: borrowed key and value pointers are written to `out`
  and `next_address_` becomes `next`. -/
  | yield (k : K) (v : V) (next : Nat) : GetNextResult K V
deriving Repr, DecidableEq

/-- The `while (true)` loop body of `FasterIterator::GetNext`
(src/unnamed/part_000 lines 62-89), fuel-indexed.  `cur` is
`current_address_` (set to `next_address_` on entry and never modified inside
the loop: the `continue` taken when `record_->header.invalid` re-enters the
loop with the same cursor).  `log` is `hlog_->Get`.  A `none` result means
the given fuel did not suffice — in particular the loop never exits by
itself once it takes the `invalid` branch. -/
def getNextLoop {K V : Type} (log : Nat → ScanRecord K V)
    (beginA headA endA cur : Nat) : Nat → Option (GetNextResult K V)
  | 0 => none
  | fuel + 1 =>
    if endA ≤ cur then some GetNextResult.scanEnded
    else if cur < beginA then some GetNextResult.beginError
    else if cur < headA then some GetNextResult.headError
    else if (log cur).header.invalid then
      getNextLoop log beginA headA endA cur fuel
    else
      some (GetNextResult.yield (log cur).key (log cur).value
        (cur + (log cur).size))

/-- A log whose every record is a live tombstone: `invalid` clear,
`tombstone` set. -/
def tombstoneLog : Nat → ScanRecord Nat Nat :=
  fun _ => ⟨⟨false, true, false, 0⟩, 7, 9, 24⟩

/-- A log whose every record has the `invalid` header bit set. -/
def invalidLog : Nat → ScanRecord Nat Nat :=
  fun _ => ⟨⟨true, false, false, 0⟩, 7, 9, 24⟩

/-! ## Claims C1 and C2: what GetNext yields, and whether it terminates. -/

/-- C1 as stated is false: `GetNext` tests only `header.invalid` and never
`header.tombstone`, so the key/value written to `out` can come from a
tombstone record.  Concretely, scanning a log whose record at address 0 is a
tombstone (begin = head = 0, end_scan = 100) yields that record. -/
theorem C1_counterexample :
    ¬(∀ (log : Nat → ScanRecord Nat Nat) (b hd e cur fuel k v n : Nat),
      getNextLoop log b hd e cur fuel = some (GetNextResult.yield k v n) →
      (log cur).header.tombstone = false) := by
  intro hclaim
  have h := hclaim tombstoneLog 0 0 100 0 1 7 9 24 (by decide)
  revert h
  decide

/-- C1 amended: whenever `GetNext` yields, the record at the cursor has the
`invalid` bit clear (records with `invalid` set are never yielded), and the
key, value and cursor advance come from that record; the `tombstone` bit is
not inspected, so the yielded record may be a tombstone. -/
theorem C1_amended_yield_from_valid_record {K V : Type}
    (log : Nat → ScanRecord K V) (b hd e cur fuel : Nat) (k : K) (v : V)
    (n : Nat)
    (h : getNextLoop log b hd e cur fuel = some (GetNextResult.yield k v n)) :
    (log cur).header.invalid = false ∧ k = (log cur).key ∧
      v = (log cur).value ∧ n = cur + (log cur).size := by
  induction fuel with
  | zero => simp [getNextLoop] at h
  | succ m ih =>
    unfold getNextLoop at h
    split at h
    · simp at h
    · split at h
      · simp at h
      · split at h
        · simp at h
        · split at h
          · exact ih h
          · rename_i hinv
            simp only [Option.some.injEq, GetNextResult.yield.injEq] at h
            exact ⟨by simpa using hinv, h.1.symm, h.2.1.symm, h.2.2.symm⟩

/-- Witness for C1 amended: scanning a log of tombstone records at cursor 0
yields the record stored there. -/
theorem C1_amended_witness :
    getNextLoop tombstoneLog 0 0 100 0 1 =
        some (GetNextResult.yield 7 9 24) ∧
      (tombstoneLog 0).header.invalid = false ∧ 7 = (tombstoneLog 0).key ∧
        9 = (tombstoneLog 0).value ∧ 24 = 0 + (tombstoneLog 0).size :=
  ⟨by decide,
    C1_amended_yield_from_valid_record tombstoneLog 0 0 100 0 1 7 9 24
      (by decide)⟩

/-- C2 is a code bug: the `continue` taken when the record at the cursor has
`invalid` set does not advance `current_address_` or `next_address_`, so the
loop re-reads the same record forever.  On a log whose record at cursor 0 has
the `invalid` bit (with begin = head = 0 and end_scan = 100, i.e. the cursor
is inside the scan range), `GetNext` never returns, whatever fuel it is
given — contradicting the claim that every call terminates with the cursor
advanced past skipped records. -/
theorem C2_invalid_record_never_returns (fuel : Nat) :
    getNextLoop invalidLog 0 0 100 0 fuel = none := by
  induction fuel with
  | zero => rfl
  | succ m ih =>
    unfold getNextLoop
    rw [if_neg (by omega), if_neg (by omega), if_neg (by omega),
      if_pos (by decide)]
    exact ih

/-! ## Byte-value store (faster-c.cc, class Value / UpsertContext / RmwContext)

`Value` holds an `AtomicGenLock` (8 bytes), `size_` (8 bytes, the allocated
record-value size, never changed in place), `length_` (8 bytes, the live byte
count) and a trailing buffer.  `sizeof(Value)` is 24.  The buffer contents
are embedded as the list of live bytes. -/

/-- `sizeof(Value)` for the byte-value store: gen lock + size + length. -/
def sizeofValue : Nat := 24

/-- The byte-value store's `Value`: generation-lock control word, allocated
size, live length, and live buffer bytes. -/
structure Value where
  gen_lock_ : Nat
  size_ : Nat
  length_ : Nat
  bytes : List Nat
deriving Repr, DecidableEq

/-- `UpsertContext::PutAtomic` (faster-c.cc lines 494-513), sequential
semantics.  The spin `while (!try_lock(replaced) && !replaced) yield;` is run
on an unchanging word, so it exits on its first iteration unless the word is
locked-and-not-replaced, in which case it spins forever (`none`).  `input`
and `len` are the context's `input_` and `length_`. -/
def putAtomic (input : List Nat) (len : Nat) (v : Value) :
    Option (Value × Bool) :=
  let r := tryLock v.gen_lock_
  if !r.1 && !r.2.1 then none
  else if r.2.1 then some (v, false)
  else
    let v1 : Value := { v with gen_lock_ := r.2.2 }
    if v1.size_ < sizeofValue + len then
      some ({ v1 with gen_lock_ := unlock true v1.gen_lock_ }, false)
    else
      some ({ v1 with
        length_ := len
        bytes := input
        gen_lock_ := unlock false v1.gen_lock_ }, true)

/-- `RmwContext::RmwAtomic` (faster-c.cc lines 639-662), sequential
semantics.  The user callback `cb_` is abstracted: `cbLen` is the new length
it reports (`new_length_`) and `cbWrite` is its in-place rewrite of the
buffer bytes. -/
def rmwAtomic (cbLen : Nat) (cbWrite : List Nat → List Nat) (v : Value) :
    Option (Value × Bool) :=
  let r := tryLock v.gen_lock_
  if !r.1 && !r.2.1 then none
  else if r.2.1 then some (v, false)
  else
    let v1 : Value := { v with gen_lock_ := r.2.2 }
    if v1.size_ < sizeofValue + cbLen then
      some ({ v1 with gen_lock_ := unlock true v1.gen_lock_ }, false)
    else
      some ({ v1 with
        bytes := cbWrite v1.bytes
        length_ := cbLen
        gen_lock_ := unlock false v1.gen_lock_ }, true)

/-- Helper: on a free lock word, `putAtomic` enters the lock-acquired branch
with the word `w + 2^62`. -/
theorem putAtomic_acquired (input : List Nat) (len : Nat) (v : Value)
    (hw : v.gen_lock_ < 2 ^ 64) (hl : lockedBit v.gen_lock_ = 0)
    (hr : replacedBit v.gen_lock_ = 0) :
    putAtomic input len v =
      (if v.size_ < sizeofValue + len then
        some ({ v with
          gen_lock_ := unlock true (v.gen_lock_ + 2 ^ 62) }, false)
      else
        some ({ v with
          length_ := len
          bytes := input
          gen_lock_ := unlock false (v.gen_lock_ + 2 ^ 62) }, true)) := by
  unfold putAtomic
  rw [tryLock_acquire v.gen_lock_ hw hl hr]
  rfl

/-- Helper: on a word with the `replaced` bit set, `putAtomic` returns
`(v, false)` without touching anything. -/
theorem putAtomic_replaced (input : List Nat) (len : Nat) (v : Value)
    (hw : v.gen_lock_ < 2 ^ 64) (hr : replacedBit v.gen_lock_ = 1) :
    putAtomic input len v = some (v, false) := by
  unfold putAtomic
  rw [tryLock_fail v.gen_lock_ hw (by simp [hr])]
  simp [hr]

/-- Helper: on a free lock word, `rmwAtomic` enters the lock-acquired branch
with the word `w + 2^62`. -/
theorem rmwAtomic_acquired (cbLen : Nat) (cbWrite : List Nat → List Nat)
    (v : Value) (hw : v.gen_lock_ < 2 ^ 64) (hl : lockedBit v.gen_lock_ = 0)
    (hr : replacedBit v.gen_lock_ = 0) :
    rmwAtomic cbLen cbWrite v =
      (if v.size_ < sizeofValue + cbLen then
        some ({ v with
          gen_lock_ := unlock true (v.gen_lock_ + 2 ^ 62) }, false)
      else
        some ({ v with
          bytes := cbWrite v.bytes
          length_ := cbLen
          gen_lock_ := unlock false (v.gen_lock_ + 2 ^ 62) }, true)) := by
  unfold rmwAtomic
  rw [tryLock_acquire v.gen_lock_ hw hl hr]
  rfl

/-- Helper: unlocking the just-acquired word `w + 2^62` with `grew = true`
always leaves the `replaced` bit set. -/
theorem unlock_true_sets_replaced (w : Nat) (hw : w < 2 ^ 62) :
    replacedBit (unlock true (w + 2 ^ 62)) = 1 := by
  unfold replacedBit unlock
  simp only
  omega

/-- Helper: unlocking the just-acquired word `w + 2^62` with `grew = false`
yields `w + 1`. -/
theorem unlock_false_of_acquired (w : Nat) (hw : w < 2 ^ 62) :
    unlock false (w + 2 ^ 62) = w + 1 := by
  unfold unlock
  simp only
  omega

/-! ## Claims C3 and C4: in-place update paths. -/

/-- C3 as stated is false: not every atomic update path maintains a
generation number.  `RmwU64Context::RmwAtomic` (src/unnamed/part_001 lines
1273-1276) mutates the `U64Value` in place with `value_ += modification_`
and returns true; `U64Value` is a bare 64-bit integer with no generation
lock.  Reading its single word under the spec's value layout (first word =
generation lock), the mutation with modification 0 succeeds yet leaves the
generation number unchanged. -/
def rmwU64Atomic (modification : Nat) (value : Nat) : Nat × Bool :=
  ((value + modification) % 2 ^ 64, true)

/-- C3 counterexample: the u64 store's in-place RMW succeeds without any
generation-number increase. -/
theorem C3_counterexample :
    (rmwU64Atomic 0 0).2 = true ∧
      ¬genNumber (rmwU64Atomic 0 0).1 > genNumber 0 := by
  decide

/-- C3 amended: for the byte-value store's atomic paths
(`UpsertContext::PutAtomic` and `RmwContext::RmwAtomic`), every successful
in-place mutation strictly increases the value's generation number by one,
provided the 62-bit counter does not wrap; the atomic paths of the other
value types maintain no generation number. -/
theorem C3_amended_gen_strictly_increases (input : List Nat)
    (len cbLen : Nat) (cbWrite : List Nat → List Nat) (v : Value)
    (hw : v.gen_lock_ < 2 ^ 64) (hg : genNumber v.gen_lock_ < 2 ^ 62 - 1) :
    (∀ v2 : Value, putAtomic input len v = some (v2, true) →
      genNumber v2.gen_lock_ = genNumber v.gen_lock_ + 1) ∧
      (∀ v2 : Value, rmwAtomic cbLen cbWrite v = some (v2, true) →
        genNumber v2.gen_lock_ = genNumber v.gen_lock_ + 1) := by
  have step : ∀ hl : lockedBit v.gen_lock_ = 0,
      ∀ hr : replacedBit v.gen_lock_ = 0,
      genNumber (unlock false (v.gen_lock_ + 2 ^ 62)) =
        genNumber v.gen_lock_ + 1 := by
    intro hl hr
    have hlt : v.gen_lock_ < 2 ^ 62 := by
      unfold lockedBit at hl
      unfold replacedBit at hr
      omega
    rw [unlock_false_of_acquired v.gen_lock_ hlt]
    unfold genNumber at *
    omega
  constructor
  · intro v2 h2
    by_cases hfree : lockedBit v.gen_lock_ = 0 ∧ replacedBit v.gen_lock_ = 0
    · rw [putAtomic_acquired input len v hw hfree.1 hfree.2] at h2
      split at h2
      · simp at h2
      · simp only [Option.some.injEq, Prod.mk.injEq] at h2
        rw [← h2.1]
        exact step hfree.1 hfree.2
    · unfold putAtomic at h2
      rw [tryLock_fail v.gen_lock_ hw hfree] at h2
      by_cases hrep : replacedBit v.gen_lock_ = 1
      · simp [hrep] at h2
      · simp [hrep] at h2
  · intro v2 h2
    by_cases hfree : lockedBit v.gen_lock_ = 0 ∧ replacedBit v.gen_lock_ = 0
    · rw [rmwAtomic_acquired cbLen cbWrite v hw hfree.1 hfree.2] at h2
      split at h2
      · simp at h2
      · simp only [Option.some.injEq, Prod.mk.injEq] at h2
        rw [← h2.1]
        exact step hfree.1 hfree.2
    · unfold rmwAtomic at h2
      rw [tryLock_fail v.gen_lock_ hw hfree] at h2
      by_cases hrep : replacedBit v.gen_lock_ = 1
      · simp [hrep] at h2
      · simp [hrep] at h2

/-- Witness for C3 amended at the concrete value `{gen 0, size 100, length 0,
bytes []}`: the in-place upsert of two bytes bumps the generation number from
0 to 1, and the in-place RMW likewise. -/
theorem C3_amended_witness :
    (Value.mk 0 100 0 []).gen_lock_ < 2 ^ 64 ∧
      genNumber (Value.mk 0 100 0 []).gen_lock_ < 2 ^ 62 - 1 ∧
      genNumber (Value.mk 1 100 2 [5, 6]).gen_lock_ =
        genNumber (Value.mk 0 100 0 []).gen_lock_ + 1 ∧
      genNumber (Value.mk 1 100 3 []).gen_lock_ =
        genNumber (Value.mk 0 100 0 []).gen_lock_ + 1 :=
  ⟨by decide, by decide,
    (C3_amended_gen_strictly_increases [5, 6] 2 3 id (Value.mk 0 100 0 [])
      (by decide) (by decide)).1 (Value.mk 1 100 2 [5, 6]) (by decide),
    (C3_amended_gen_strictly_increases [5, 6] 2 3 id (Value.mk 0 100 0 [])
      (by decide) (by decide)).2 (Value.mk 1 100 3 []) (by decide)⟩

/-- C4: behaviour of `UpsertContext::PutAtomic` once past the spin loop.
With the generation lock free: if the required size `sizeof(Value) + length`
fits in the record's allocated `size_`, the value is overwritten in place,
the lock released with `grew = false`, and true returned; if it does not
fit, the lock is released with `grew = true` — which sets the `replaced`
bit — false is returned, and `size_`, `length_` and the bytes are untouched.
If the lock word is observed `replaced`, false is returned and nothing is
mutated. -/
theorem C4_put_atomic_cases (input : List Nat) (len : Nat) (v : Value)
    (hw : v.gen_lock_ < 2 ^ 64) :
    ((lockedBit v.gen_lock_ = 0 ∧ replacedBit v.gen_lock_ = 0) →
      ((sizeofValue + len ≤ v.size_ →
        putAtomic input len v =
          some ({ v with
            length_ := len
            bytes := input
            gen_lock_ := unlock false (v.gen_lock_ + 2 ^ 62) }, true)) ∧
        (v.size_ < sizeofValue + len →
          putAtomic input len v =
            some ({ v with
              gen_lock_ := unlock true (v.gen_lock_ + 2 ^ 62) }, false) ∧
            replacedBit (unlock true (v.gen_lock_ + 2 ^ 62)) = 1))) ∧
      (replacedBit v.gen_lock_ = 1 → putAtomic input len v = some (v, false)) := by
  constructor
  · rintro ⟨hl, hr⟩
    have hlt : v.gen_lock_ < 2 ^ 62 := by
      unfold lockedBit at hl
      unfold replacedBit at hr
      omega
    rw [putAtomic_acquired input len v hw hl hr]
    constructor
    · intro hfit
      rw [if_neg (by omega)]
    · intro hgrow
      rw [if_pos hgrow]
      exact ⟨rfl, unlock_true_sets_replaced v.gen_lock_ hlt⟩
  · intro hrep
    exact putAtomic_replaced input len v hw hrep

/-- Witness for C4 at the concrete value `{gen 0, size 30, length 1,
bytes [9]}` and a 2-byte input (fits: 24 + 2 <= 30): the in-place branch
fires and returns true with the new bytes installed. -/
theorem C4_witness :
    (Value.mk 0 30 1 [9]).gen_lock_ < 2 ^ 64 ∧
      (lockedBit (Value.mk 0 30 1 [9]).gen_lock_ = 0 ∧
        replacedBit (Value.mk 0 30 1 [9]).gen_lock_ = 0) ∧
      sizeofValue + 2 ≤ (Value.mk 0 30 1 [9]).size_ ∧
      putAtomic [5, 6] 2 (Value.mk 0 30 1 [9]) =
        some ({ Value.mk 0 30 1 [9] with
          length_ := 2
          bytes := [5, 6]
          gen_lock_ :=
            unlock false ((Value.mk 0 30 1 [9]).gen_lock_ + 2 ^ 62) }, true) :=
  ⟨by decide, ⟨by decide, by decide⟩, by decide,
    ((C4_put_atomic_cases [5, 6] 2 (Value.mk 0 30 1 [9]) (by decide)).1
      ⟨by decide, by decide⟩).1 (by decide)⟩

/-! ## Ten-elements store (src/unnamed/part_001, TenElementsValue and its
contexts)

`TenElementsValue` holds `length_` and `tail_` (uint8 each) followed by a
buffer of ten `size_t` slots.  Buffer slots are embedded as `Option Nat`
(`none` = the slot has never been written). -/

/-- The ten-elements value: live element count, ring tail index, and the
ten-slot buffer. -/
structure TenElementsValue where
  length_ : Nat
  tail_ : Nat
  buffer : Fin 10 → Option Nat

/-- The zero-fill loop `for (i = 1; i < 10; ++i) value.buffer()[i] = 0;` at
the start of `RmwTenElementsContext::RmwInitial` (part_001 lines 1421-1423):
it writes slots 1 through 9 and does not touch slot 0. -/
def zeroFillSlots (v : TenElementsValue) : TenElementsValue :=
  { v with buffer := fun i => if 1 ≤ i.val then some 0 else v.buffer i }

/-- The write `value.buffer()[value.tail_] = modification;` shared by the
three RMW paths. -/
def writeAtTail (m : Nat) (v : TenElementsValue) : TenElementsValue :=
  { v with buffer := fun i => if i.val = v.tail_ then some m else v.buffer i }

/-- `RmwTenElementsContext::RmwInitial` (part_001 lines 1420-1427): zero-fill
slots 1-9, set `length_ = 1`, store the modification at `tail_`, then advance
`tail_` modulo 10. -/
def rmwInitialTE (m : Nat) (v : TenElementsValue) : TenElementsValue :=
  let v1 := zeroFillSlots v
  let v2 := { v1 with length_ := 1 }
  let v3 := writeAtTail m v2
  { v3 with tail_ := (v3.tail_ + 1) % 10 }

/-- `RmwTenElementsContext::RmwCopy` (part_001 lines 1428-1434): the new
record's value is fully determined by the old value — bumped saturating
length, the old buffer (memcpy of all ten slots), the old tail, the
modification written at the tail, tail advanced modulo 10. -/
def rmwCopyTE (m : Nat) (old : TenElementsValue) : TenElementsValue :=
  let l := if old.length_ < 10 then old.length_ + 1 else 10
  let v1 : TenElementsValue :=
    { length_ := l, tail_ := old.tail_, buffer := old.buffer }
  let v2 := writeAtTail m v1
  { v2 with tail_ := (v2.tail_ + 1) % 10 }

/-- `RmwTenElementsContext::RmwAtomic` (part_001 lines 1435-1440): in-place
variant of the same update; always returns true. -/
def rmwAtomicTE (m : Nat) (v : TenElementsValue) : TenElementsValue × Bool :=
  let l := if v.length_ < 10 then v.length_ + 1 else 10
  let v1 := { v with length_ := l }
  let v2 := writeAtTail m v1
  ({ v2 with tail_ := (v2.tail_ + 1) % 10 }, true)

/-- Buffer access `value.buffer()[i]` for a `Nat` index, unwritten slots
reading as an arbitrary fixed byte (0). -/
def bufGet (v : TenElementsValue) (i : Nat) : Nat :=
  if h : i < 10 then (v.buffer ⟨i, h⟩).getD 0 else 0

/-- The sum loop of `ReadTenElementsContext::Get` / `GetAtomic` (part_001
lines 684-697): `for (i = 0; i < value.length_; ++i) sum += buffer()[i]`. -/
def tenSum (v : TenElementsValue) : Nat :=
  (List.range v.length_).foldl (fun s i => s + bufGet v i) 0

/-- `ReadTenElementsContext::Get` (part_001 lines 684-690): the callback
receives `sum / value.length_`. -/
def readTenElementsGet (v : TenElementsValue) : Nat := tenSum v / v.length_

/-- `ReadTenElementsContext::GetAtomic` (part_001 lines 691-697): identical
body to `Get`. -/
def readTenElementsGetAtomic (v : TenElementsValue) : Nat :=
  tenSum v / v.length_

/-- Modelled from the spec: the value of a freshly allocated record before
`RmwInitial` runs.  The allocation path (faster.h) is not under src/; per the
spec's description of the first-insert path, `tail` starts at 0 and the
ten-slot buffer is uninitialised. -/
def freshTenElements : TenElementsValue :=
  { length_ := 0, tail_ := 0, buffer := fun _ => none }

/-- A zero-initialised ten-elements value: both counters 0 and every slot
holding 0. -/
def zeroTenElements : TenElementsValue :=
  { length_ := 0, tail_ := 0, buffer := fun _ => some 0 }

/-! ## Claim C7: the first-insert path and slot 0. -/

/-- C7: `RmwInitial`'s zero-fill loop covers exactly slots 1 through 9, so
immediately before the modification is written the buffer's slot 0 is still
uninitialised while `tail_` is 0 — the path does not initialise all ten slots
before writing.  The subsequent write at the tail position then stores the
modification in slot 0, and the call ends with `length_ = 1` and
`tail_ = 1`. -/
theorem C7_rmw_initial_skips_slot_zero (m : Nat) :
    (zeroFillSlots freshTenElements).buffer 0 = none ∧
      (zeroFillSlots freshTenElements).tail_ = 0 ∧
      (∀ i : Fin 10, (zeroFillSlots freshTenElements).buffer i =
        if i.val = 0 then none else some 0) ∧
      (rmwInitialTE m freshTenElements).buffer 0 = some m ∧
      (rmwInitialTE m freshTenElements).length_ = 1 ∧
      (rmwInitialTE m freshTenElements).tail_ = 1 := by
  refine ⟨rfl, rfl, ?_, ?_, rfl, rfl⟩
  · intro i
    by_cases h : i.val = 0
    · simp [zeroFillSlots, freshTenElements, h]
    · simp [zeroFillSlots, freshTenElements, h]
  · simp [rmwInitialTE, writeAtTail, zeroFillSlots, freshTenElements]

/-! ## Claim C10: ring-buffer well-formedness of reachable values. -/

/-- One application of a ten-elements RMW path, as used to describe the set
of values reachable by the store's operations. -/
inductive TenOp where
  /-- `RmwInitial` with the given modification. -/
  | initial (m : Nat) : TenOp
  /-- `RmwCopy` from the current value into a fresh record. -/
  | copy (m : Nat) : TenOp
  /-- `RmwAtomic` in place. -/
  | atomic (m : Nat) : TenOp

/-- Apply one RMW path to a value. -/
def applyTenOp (op : TenOp) (v : TenElementsValue) : TenElementsValue :=
  match op with
  | TenOp.initial m => rmwInitialTE m v
  | TenOp.copy m => rmwCopyTE m v
  | TenOp.atomic m => (rmwAtomicTE m v).1

/-- Apply a sequence of RMW paths, oldest first. -/
def runTenOps (ops : List TenOp) (v : TenElementsValue) : TenElementsValue :=
  ops.foldl (fun acc op => applyTenOp op acc) v

/-- Helper: every single RMW path establishes the ring-buffer bounds
`1 ≤ length_ ≤ 10` and `tail_ ≤ 9`, whatever value it is applied to. -/
theorem applyTenOp_bounds (op : TenOp) (v : TenElementsValue) :
    1 ≤ (applyTenOp op v).length_ ∧ (applyTenOp op v).length_ ≤ 10 ∧
      (applyTenOp op v).tail_ ≤ 9 := by
  cases op with
  | initial m =>
    simp only [applyTenOp, rmwInitialTE, writeAtTail, zeroFillSlots]
    omega
  | copy m =>
    simp only [applyTenOp, rmwCopyTE, writeAtTail]
    constructor
    · split <;> omega
    constructor
    · split <;> omega
    · omega
  | atomic m =>
    simp only [applyTenOp, rmwAtomicTE, writeAtTail]
    constructor
    · split <;> omega
    constructor
    · split <;> omega
    · omega

/-- Helper: the bounds are preserved by any further sequence of RMW paths. -/
theorem runTenOps_bounds (ops : List TenOp) (v : TenElementsValue)
    (h : 1 ≤ v.length_ ∧ v.length_ ≤ 10 ∧ v.tail_ ≤ 9) :
    1 ≤ (runTenOps ops v).length_ ∧ (runTenOps ops v).length_ ≤ 10 ∧
      (runTenOps ops v).tail_ ≤ 9 := by
  induction ops generalizing v with
  | nil => exact h
  | cons op rest ih => exact ih (applyTenOp op v) (applyTenOp_bounds op v)

/-- C10: every value reached from the zero-initialised value by a non-empty
sequence of `RmwInitial` / `RmwCopy` / `RmwAtomic` applications satisfies
`1 ≤ length_ ≤ 10` and `tail_ ≤ 9`; consequently `length_ ≠ 0`, so the
division `sum / value.length_` performed by `ReadTenElementsContext::Get` and
`GetAtomic` never divides by zero. -/
theorem C10_ten_elements_invariant (ops : List TenOp) (h : ops ≠ []) :
    1 ≤ (runTenOps ops zeroTenElements).length_ ∧
      (runTenOps ops zeroTenElements).length_ ≤ 10 ∧
      (runTenOps ops zeroTenElements).tail_ ≤ 9 ∧
      (runTenOps ops zeroTenElements).length_ ≠ 0 ∧
      readTenElementsGet (runTenOps ops zeroTenElements) =
        tenSum (runTenOps ops zeroTenElements) /
          (runTenOps ops zeroTenElements).length_ ∧
      readTenElementsGetAtomic (runTenOps ops zeroTenElements) =
        tenSum (runTenOps ops zeroTenElements) /
          (runTenOps ops zeroTenElements).length_ := by
  match ops with
  | [] => exact absurd rfl h
  | op :: rest =>
    have h0 : runTenOps (op :: rest) zeroTenElements =
        runTenOps rest (applyTenOp op zeroTenElements) := rfl
    rw [h0]
    have hb := runTenOps_bounds rest (applyTenOp op zeroTenElements)
      (applyTenOp_bounds op zeroTenElements)
    exact ⟨hb.1, hb.2.1, hb.2.2, by omega, rfl, rfl⟩

/-- Witness for C10 with the single-operation sequence `[RmwInitial 5]`. -/
theorem C10_witness :
    ([TenOp.initial 5] ≠ ([] : List TenOp)) ∧
      (1 ≤ (runTenOps [TenOp.initial 5] zeroTenElements).length_ ∧
        (runTenOps [TenOp.initial 5] zeroTenElements).length_ ≤ 10 ∧
        (runTenOps [TenOp.initial 5] zeroTenElements).tail_ ≤ 9 ∧
        (runTenOps [TenOp.initial 5] zeroTenElements).length_ ≠ 0 ∧
        readTenElementsGet (runTenOps [TenOp.initial 5] zeroTenElements) =
          tenSum (runTenOps [TenOp.initial 5] zeroTenElements) /
            (runTenOps [TenOp.initial 5] zeroTenElements).length_ ∧
        readTenElementsGetAtomic
            (runTenOps [TenOp.initial 5] zeroTenElements) =
          tenSum (runTenOps [TenOp.initial 5] zeroTenElements) /
            (runTenOps [TenOp.initial 5] zeroTenElements).length_) :=
  ⟨by simp, C10_ten_elements_invariant [TenOp.initial 5] (by simp)⟩

/-! ## C shim: faster_continue_session (src/unnamed/part_001)

The eight-variant `store_type` enum (part_001 lines 1611-1620) and the shim
`faster_continue_session` (lines 2415-2428).  The engine-side
`ContinueSession` (faster.h, not under src/) is abstracted as the serial
number it would return; the shim's control flow is what is embedded.  A
`none` result models the C function reaching its closing brace without
executing any `return` statement (undefined return value). -/

/-- The `store_type` tag stored in a `faster_t` handle. -/
inductive StoreType where
  | NULL_DISK : StoreType
  | FILESYSTEM_DISK : StoreType
  | PERSON_STORE : StoreType
  | AUCTIONS_STORE : StoreType
  | U64_STORE : StoreType
  | U64_PAIR_STORE : StoreType
  | TEN_ELEMENTS_STORE : StoreType
  | AUCTION_BIDS_STORE : StoreType
deriving Repr, DecidableEq

/-- `faster_continue_session` (part_001 lines 2415-2428): a null handle
returns `(uint64_t)(-1)`; a handle whose type is `NULL_DISK` or
`FILESYSTEM_DISK` returns the engine's `ContinueSession` result
(`lastSerial`); every other store type falls through the `switch` and off the
end of the function — no value is returned. -/
def fasterContinueSession (handle : Option StoreType) (lastSerial : Nat) :
    Option Nat :=
  match handle with
  | none => some (2 ^ 64 - 1)
  | some StoreType.NULL_DISK => some lastSerial
  | some StoreType.FILESYSTEM_DISK => some lastSerial
  | some _ => none

/-- C8 is a code bug: `faster_continue_session` is not total over the eight
store types.  For a handle of type `U64_STORE` (and every type other than
`NULL_DISK` / `FILESYSTEM_DISK`) the switch falls through and the function
returns no defined value, while the two handled types do return the
engine's last serial number. -/
theorem C8_continue_session_falls_through :
    fasterContinueSession (some StoreType.U64_STORE) 7 = none ∧
      fasterContinueSession (some StoreType.PERSON_STORE) 7 = none ∧
      fasterContinueSession (some StoreType.AUCTIONS_STORE) 7 = none ∧
      fasterContinueSession (some StoreType.U64_PAIR_STORE) 7 = none ∧
      fasterContinueSession (some StoreType.TEN_ELEMENTS_STORE) 7 = none ∧
      fasterContinueSession (some StoreType.AUCTION_BIDS_STORE) 7 = none ∧
      fasterContinueSession (some StoreType.NULL_DISK) 7 = some 7 ∧
      fasterContinueSession (some StoreType.FILESYSTEM_DISK) 7 = some 7 := by
  decide

/-! ## C status encoding (src/unnamed/part_000 lines 118-127 and the
operation shims of faster-c.cc)

The C header declares `enum faster_status` with no explicit initialisers, so
C gives its enumerators the values 0, 1, ..., 6 in declaration order.  The
engine-side `Status` enum (core/status.h) is not under src/ and is modelled
from the spec's status table. -/

/-- The C interface's `faster_status` enumeration, in declaration order. -/
inductive FasterStatusC where
  | Ok : FasterStatusC
  | Pending : FasterStatusC
  | NotFound : FasterStatusC
  | OutOfMemory : FasterStatusC
  | IOError : FasterStatusC
  | Corrupted : FasterStatusC
  | Aborted : FasterStatusC
deriving Repr, DecidableEq

/-- The integer value C assigns each `faster_status` enumerator: successive
values starting from 0 in declaration order. -/
def FasterStatusC.val : FasterStatusC → Nat
  | FasterStatusC.Ok => 0
  | FasterStatusC.Pending => 1
  | FasterStatusC.NotFound => 2
  | FasterStatusC.OutOfMemory => 3
  | FasterStatusC.IOError => 4
  | FasterStatusC.Corrupted => 5
  | FasterStatusC.Aborted => 6

/-- Modelled from the spec: the engine's `Status` enum (core/status.h is not
under src/), whose numeric values the spec's status table gives as
`Ok=0, Pending=1, NotFound=2, OutOfMemory=3, IOError=4, Corrupted=5,
Aborted=6`. -/
inductive Status where
  | Ok : Status
  | Pending : Status
  | NotFound : Status
  | OutOfMemory : Status
  | IOError : Status
  | Corrupted : Status
  | Aborted : Status
deriving Repr, DecidableEq

/-- Modelled from the spec: the numeric value of each engine status. -/
def Status.val : Status → Nat
  | Status.Ok => 0
  | Status.Pending => 1
  | Status.NotFound => 2
  | Status.OutOfMemory => 3
  | Status.IOError => 4
  | Status.Corrupted => 5
  | Status.Aborted => 6

/-- The name-preserving correspondence between the engine status and the C
status enumeration. -/
def statusToC : Status → FasterStatusC
  | Status.Ok => FasterStatusC.Ok
  | Status.Pending => FasterStatusC.Pending
  | Status.NotFound => FasterStatusC.NotFound
  | Status.OutOfMemory => FasterStatusC.OutOfMemory
  | Status.IOError => FasterStatusC.IOError
  | Status.Corrupted => FasterStatusC.Corrupted
  | Status.Aborted => FasterStatusC.Aborted

/-- Return value of `faster_upsert` (faster-c.cc lines 811-828):
`static_cast<uint8_t>(result)` of the engine's `Upsert` status. -/
def fasterUpsertReturn (result : Status) : Nat := result.val % 256

/-- Return value of `faster_read` (faster-c.cc lines 875-900): the cast of
the engine's `Read` status. -/
def fasterReadReturn (result : Status) : Nat := result.val % 256

/-- Return value of `faster_rmw` (faster-c.cc lines 843-862): the cast of
the engine's `Rmw` status. -/
def fasterRmwReturn (result : Status) : Nat := result.val % 256

/-- Return value of `faster_delete` (faster-c.cc lines 902-918): the cast of
the engine's `Delete` status. -/
def fasterDeleteReturn (result : Status) : Nat := result.val % 256

/-- C9: the C status enumeration carries exactly the values `Ok=0`,
`Pending=1`, `NotFound=2`, `OutOfMemory=3`, `IOError=4`, `Corrupted=5`,
`Aborted=6`, and each operation shim (upsert, read, rmw, delete) returns the
engine's status cast to this encoding: the returned byte equals the C value
of the same-named `faster_status` enumerator. -/
theorem C9_status_encoding :
    (FasterStatusC.val FasterStatusC.Ok = 0 ∧
      FasterStatusC.val FasterStatusC.Pending = 1 ∧
      FasterStatusC.val FasterStatusC.NotFound = 2 ∧
      FasterStatusC.val FasterStatusC.OutOfMemory = 3 ∧
      FasterStatusC.val FasterStatusC.IOError = 4 ∧
      FasterStatusC.val FasterStatusC.Corrupted = 5 ∧
      FasterStatusC.val FasterStatusC.Aborted = 6) ∧
      ∀ r : Status,
        fasterUpsertReturn r = (statusToC r).val ∧
          fasterReadReturn r = (statusToC r).val ∧
          fasterRmwReturn r = (statusToC r).val ∧
          fasterDeleteReturn r = (statusToC r).val := by
  refine ⟨⟨rfl, rfl, rfl, rfl, rfl, rfl, rfl⟩, ?_⟩
  intro r
  cases r <;> exact ⟨rfl, rfl, rfl, rfl⟩

end FasterSpec
